import Mathlib

/-!
Shallow embedding of the RusCom tokenizer (src/src/lexer/lexer.rs and
src/src/lexer/token.rs, with the duplicate src/src/lexer.rs), plus the CLI
`lex` scanning loops from src/src/main.rs.

The Rust scanner state is `(chars : std::str::Chars, peeked : Option<char>)`;
it is represented here as the single list `peeked :: chars` of remaining
characters (`None` for `peeked` corresponds to the empty list, since `peeked`
is refilled from `chars` on every `bump`).
-/

namespace RusCom

/-- Token model from token.rs (`enum Token`). -/
inductive Token where
  | Identifier (s : String)
  | Number (s : String)
  | StringLiteral (s : String)
  | CharLiteral (c : Char)
  | Operator (s : String)
  | Punct (c : Char)
  | Eof
  deriving DecidableEq

/-- Error taxonomy from token.rs (`enum LexError`). -/
inductive LexError where
  | UnterminatedString
  | UnterminatedChar
  | InvalidEscape
  deriving DecidableEq

deriving instance DecidableEq for Except

/-- Rust `char::is_whitespace`: the Unicode `White_Space` property. -/
def rust_is_whitespace (c : Char) : Bool :=
  let n := c.toNat
  n = 0x09 || n = 0x0A || n = 0x0B || n = 0x0C || n = 0x0D || n = 0x20 ||
  n = 0x85 || n = 0xA0 || n = 0x1680 || (0x2000 ≤ n && n ≤ 0x200A) ||
  n = 0x2028 || n = 0x2029 || n = 0x202F || n = 0x205F || n = 0x3000

/-- Rust `char::is_ascii_alphabetic`. -/
def is_ascii_alphabetic (c : Char) : Bool :=
  let n := c.toNat
  (0x41 ≤ n && n ≤ 0x5A) || (0x61 ≤ n && n ≤ 0x7A)

/-- Rust `char::is_ascii_digit`. -/
def is_ascii_digit (c : Char) : Bool :=
  let n := c.toNat
  0x30 ≤ n && n ≤ 0x39

/-- Rust `char::is_ascii_alphanumeric`. -/
def is_ascii_alphanumeric (c : Char) : Bool :=
  is_ascii_alphabetic c || is_ascii_digit c

/-- The punctuation set `"{}();,[]<>".contains(c)` in `Lexer::next`. -/
def punct_chars : List Char := ['{', '}', '(', ')', ';', ',', '[', ']', '<', '>']

/-- The fixed two-character operator array `two_ops` in `Lexer::next`.
The source checks membership of `format!("{}{}", c, next)` in an array of
two-character strings; a two-character string is represented as the pair of
its characters. -/
def two_ops : List (Char × Char) :=
  [('=', '='), ('!', '='), ('<', '='), ('=', '>'), ('-', '>'),
   ('+', '+'), ('-', '-'), ('+', '='), ('-', '='), ('*', '='),
   ('/', '='), ('&', '&'), ('|', '|'), ('<', '<'), ('>', '>')]

/-- The escape-character match appearing (identically) in both
`Lexer::read_string` and `Lexer::read_char`: `some` on the six mapped escape
characters, `none` where the source returns `Err(LexError::InvalidEscape)`. -/
def esc_table (c : Char) : Option Char :=
  if c = 'n' then some '\n'
  else if c = 't' then some '\t'
  else if c = 'r' then some '\r'
  else if c = '\\' then some '\\'
  else if c = '\'' then some '\''
  else if c = '"' then some '"'
  else none

/-- `Lexer::eat_while`: consume the maximal prefix satisfying `f`, returning
the consumed characters and the remaining input. -/
def eat_while (f : Char → Bool) : List Char → List Char × List Char
  | [] => ([], [])
  | c :: rest =>
    if f c then
      let (s, rest2) := eat_while f rest
      (c :: s, rest2)
    else ([], c :: rest)

/-- The line-comment body loop in `Lexer::skip_whitespace_and_comments`
( `//` already consumed): consume through the first newline inclusive, or
through end of input. -/
def drop_line : List Char → List Char
  | [] => []
  | c :: rest => if c = '\n' then rest else drop_line rest

/-- The block-comment body loop in `Lexer::skip_whitespace_and_comments`
( `/*` already consumed): `bump` a character; if it is `*` and the lookahead
is `/`, consume the `/` and stop; at end of input stop silently (no error);
otherwise continue. -/
def drop_block : List Char → List Char
  | [] => []
  | c :: rest =>
    if c = '*' then
      if rest.head? = some '/' then rest.tail
      else drop_block rest
    else drop_block rest

/-- The outer loop of `Lexer::skip_whitespace_and_comments`, with explicit
fuel. Each pass skips a maximal whitespace run; if the lookahead is `/` and
the character after it (read from a clone of the cursor) is `/` or `*`, the
corresponding comment is consumed and the loop restarts, otherwise the loop
stops having made no further progress. Every restart has consumed at least
the two comment-opener characters, so `length + 1` fuel always suffices
(`skip_loop_eq_nil_of_ws_comments` below exercises this bound). -/
def skip_loop : Nat → List Char → List Char
  | 0, cs => cs
  | fuel + 1, cs =>
    let cs1 := cs.dropWhile rust_is_whitespace
    if cs1.head? = some '/' && cs1.tail.head? = some '/' then
      skip_loop fuel (drop_line cs1.tail.tail)
    else if cs1.head? = some '/' && cs1.tail.head? = some '*' then
      skip_loop fuel (drop_block cs1.tail.tail)
    else cs1

/-- `Lexer::skip_whitespace_and_comments`. -/
def skip_whitespace_and_comments (cs : List Char) : List Char :=
  skip_loop (cs.length + 1) cs

/-- `Lexer::read_string` (opening `"` already consumed); `acc` is the
accumulated decoded string `s`. Returns the token or error together with the
scanner state left behind. -/
def read_string (acc : List Char) : List Char → (Except LexError Token) × List Char
  | [] => (.error .UnterminatedString, [])
  | '\\' :: [] => (.error .UnterminatedString, [])
  | '\\' :: e :: rest2 =>
    match esc_table e with
    | some d => read_string (acc ++ [d]) rest2
    | none => (.error .InvalidEscape, rest2)
  | '"' :: rest => (.ok (.StringLiteral (String.mk acc)), rest)
  | c :: rest => read_string (acc ++ [c]) rest

/-- `Lexer::read_char` (opening `'` already consumed). -/
def read_char : List Char → (Except LexError Token) × List Char
  | [] => (.error .UnterminatedChar, [])
  | '\\' :: [] => (.error .UnterminatedChar, [])
  | '\\' :: e :: rest2 =>
    match esc_table e with
    | none => (.error .InvalidEscape, rest2)
    | some d =>
      if rest2.head? = some '\'' then (.ok (.CharLiteral d), rest2.tail)
      else (.error .UnterminatedChar, rest2)
  | c :: rest =>
    if rest.head? = some '\'' then (.ok (.CharLiteral c), rest.tail)
    else (.error .UnterminatedChar, rest)

/-- `<Lexer as Iterator>::next`. The Rust implementation always returns
`Some(result)`; the `Option` layer is therefore dropped and the function
returns the result together with the successor scanner state. -/
def lexer_next (cs : List Char) : (Except LexError Token) × List Char :=
  match skip_whitespace_and_comments cs with
  | [] => (.ok .Eof, [])
  | c :: rest =>
    if is_ascii_alphabetic c || c = '_' then
      let (s, rest2) := eat_while (fun ch => is_ascii_alphanumeric ch || ch = '_') rest
      (.ok (.Identifier (String.mk (c :: s))), rest2)
    else if is_ascii_digit c then
      let (s, rest2) := eat_while (fun ch => is_ascii_digit ch || ch = '.') rest
      (.ok (.Number (String.mk (c :: s))), rest2)
    else if c = '"' then read_string [] rest
    else if c = '\'' then read_char rest
    else if punct_chars.contains c then (.ok (.Punct c), rest)
    else
      match rest with
      | next :: rest2 =>
        if two_ops.contains (c, next) then
          (.ok (.Operator (String.mk [c, next])), rest2)
        else (.ok (.Operator (String.mk [c])), rest)
      | [] => (.ok (.Operator (String.mk [c])), [])

/-- The scanner: its only state is the list of remaining characters
(`peeked :: chars` of the Rust struct). -/
structure Lexer where
  cs : List Char
  deriving DecidableEq

/-- `Lexer::new`: prime `peeked` from the input's character stream; the
state is exactly the input's characters. -/
def Lexer.new (input : String) : Lexer := ⟨input.toList⟩

/-- One pull from the scanner (`lexer.next()` at a call site). -/
def Lexer.next (l : Lexer) : (Except LexError Token) × Lexer :=
  ((lexer_next l.cs).1, ⟨(lexer_next l.cs).2⟩)

/-- Result of the k-th pull (0-based) from scanner state `l`. -/
def pull_n : Lexer → Nat → Except LexError Token
  | l, 0 => l.next.1
  | l, k + 1 => pull_n l.next.2 k

/-- The first `n` pull results from scanner state `l`, in order. -/
def token_seq : Lexer → Nat → List (Except LexError Token)
  | _, 0 => []
  | l, n + 1 => l.next.1 :: token_seq l.next.2 n

/-- The CLI `lex <input>` loop without `--count` (src/src/main.rs):
`while let Some(tok) = lexer.next() { Ok(t) => println!("{:?}", t),
Err(e) => { eprintln; break } }`. The iterator always yields `Some`, so the
only exit from the loop is the `Err` break. The result is the list of tokens
printed within `fuel` iterations paired with whether the loop exited within
that many iterations. -/
def lex_print_loop : Nat → Lexer → List Token × Bool
  | 0, _ => ([], false)
  | fuel + 1, l =>
    match l.next with
    | (.ok t, l2) =>
      let (ts, stopped) := lex_print_loop fuel l2
      (t :: ts, stopped)
    | (.error _, _) => ([], true)

/-- `true` iff the list contains `*/` as a contiguous substring (the
block-comment terminator searched for by `drop_block`). -/
def has_star_slash : List Char → Bool
  | [] => false
  | c :: rest => (c = '*' && rest.head? = some '/') || has_star_slash rest

/-- Inputs consisting solely of whitespace and comments: any interleaving of
whitespace characters, line comments (newline-terminated or running to end of
input) and block comments (terminated or not). -/
inductive WsComments : List Char → Prop
  | nil : WsComments []
  | ws {c : Char} {rest : List Char} :
      rust_is_whitespace c = true → WsComments rest → WsComments (c :: rest)
  | line {body rest : List Char} :
      '\n' ∉ body → WsComments rest →
      WsComments ('/' :: '/' :: (body ++ '\n' :: rest))
  | lineEnd {body : List Char} :
      '\n' ∉ body → WsComments ('/' :: '/' :: body)
  | block {body rest : List Char} :
      has_star_slash body = false → WsComments rest →
      WsComments ('/' :: '*' :: (body ++ '*' :: '/' :: rest))
  | blockEnd {body : List Char} :
      has_star_slash body = false → WsComments ('/' :: '*' :: body)

/-! Helper lemmas about the embedded scanner. -/

/-- `eat_while` consumes a maximal satisfying prefix: every consumed character
satisfies `f`, consumed ++ remaining reassembles the input, and the first
remaining character (if any) fails `f`. -/
theorem eat_while_spec (f : Char → Bool) :
    ∀ cs : List Char,
      (∀ c ∈ (eat_while f cs).1, f c = true) ∧
      (eat_while f cs).1 ++ (eat_while f cs).2 = cs ∧
      (∀ c, ((eat_while f cs).2).head? = some c → f c = false) := by
  intro cs
  induction cs with
  | nil => simp [eat_while]
  | cons c rest ih =>
    by_cases hc : f c = true
    · simpa [eat_while, hc] using ih
    · simp only [Bool.not_eq_true] at hc
      simp [eat_while, hc]

/-- `read_string` never yields a token other than `StringLiteral`. -/
theorem read_string_ok_shape :
    ∀ acc cs t, (read_string acc cs).1 = .ok t → ∃ s, t = Token.StringLiteral s := by
  intro acc cs
  induction acc, cs using read_string.induct with
  | case1 acc => intro t h; simp [read_string] at h
  | case2 acc => intro t h; simp [read_string] at h
  | case3 acc e rest d hesc ih =>
    intro t h
    simp [read_string, hesc] at h
    exact ih t h
  | case4 acc e rest hesc =>
    intro t h
    simp [read_string, hesc] at h
  | case5 acc rest =>
    intro t h
    simp [read_string] at h
    first
    | exact ⟨_, h⟩
    | exact ⟨_, h.symm⟩
  | case6 acc c rest h1 h2 h3 ih =>
    intro t h
    have hc1 : ¬c = '\\' := by
      intro hc
      rcases rest with _ | ⟨e, r2⟩
      · exact h1 hc rfl
      · exact h2 e r2 hc rfl
    simp [read_string, hc1, h3] at h
    exact ih t h

/-- `read_char` never yields a token other than `CharLiteral`. -/
theorem read_char_ok_shape :
    ∀ cs t, (read_char cs).1 = .ok t → ∃ c2, t = Token.CharLiteral c2 := by
  intro cs t h
  rcases cs with _ | ⟨c, rest⟩
  · simp [read_char] at h
  · by_cases hc : c = '\\'
    · subst hc
      rcases rest with _ | ⟨e, rest2⟩
      · simp [read_char] at h
      · rcases hesc : esc_table e with _ | d
        · simp [read_char, hesc] at h
        · by_cases hq : rest2.head? = some '\''
          · simp [read_char, hesc, hq] at h
            first
            | exact ⟨_, h⟩
            | exact ⟨_, h.symm⟩
          · simp [read_char, hesc, hq] at h
    · by_cases hq : rest.head? = some '\''
      · simp [read_char, hc, hq] at h
        first
        | exact ⟨_, h⟩
        | exact ⟨_, h.symm⟩
      · simp [read_char, hc, hq] at h

/-- `drop_line` consumes a newline-free body together with the newline. -/
theorem drop_line_append {body : List Char} (h : '\n' ∉ body) (rest : List Char) :
    drop_line (body ++ '\n' :: rest) = rest := by
  induction body with
  | nil => simp [drop_line]
  | cons c b ih =>
    simp only [List.mem_cons, not_or] at h
    have hc : ¬c = '\n' := fun hcc => h.1 hcc.symm
    simp [drop_line, hc, ih h.2]

/-- `drop_line` on a newline-free tail consumes everything. -/
theorem drop_line_eq_nil {body : List Char} (h : '\n' ∉ body) :
    drop_line body = [] := by
  induction body with
  | nil => rfl
  | cons c b ih =>
    simp only [List.mem_cons, not_or] at h
    have hc : ¬c = '\n' := fun hcc => h.1 hcc.symm
    simp [drop_line, hc, ih h.2]

/-- A terminator-free cons decomposes into a head condition and the tail. -/
theorem has_star_slash_false_cons {c : Char} {b : List Char}
    (h : has_star_slash (c :: b) = false) :
    (c = '*' → b.head? ≠ some '/') ∧ has_star_slash b = false := by
  rw [has_star_slash] at h
  simp only [Bool.or_eq_false_iff, Bool.and_eq_false_iff] at h
  constructor
  · intro hc hq
    rcases h.1 with h1 | h1
    · simp [hc] at h1
    · simp [hq] at h1
  · exact h.2

/-- `drop_block` consumes a terminator-free body and the first `*/`. -/
theorem drop_block_append {body : List Char} (h : has_star_slash body = false)
    (rest : List Char) :
    drop_block (body ++ '*' :: '/' :: rest) = rest := by
  induction body with
  | nil => simp [drop_block]
  | cons c b ih =>
    rcases has_star_slash_false_cons h with ⟨hhead, hb⟩
    by_cases hc : c = '*'
    · rcases b with _ | ⟨c2, b2⟩
      · subst hc; simp [drop_block]
      · have hq : ¬((c2 :: (b2 ++ '*' :: '/' :: rest) : List Char).head? = some '/') := by
          simpa using hhead hc
        simp only [List.cons_append]
        rw [drop_block, if_pos hc, if_neg hq]
        simpa [List.cons_append] using ih hb
    · simp only [List.cons_append]
      rw [drop_block, if_neg hc]
      simpa [List.cons_append] using ih hb

/-- `drop_block` on a terminator-free tail consumes everything. -/
theorem drop_block_eq_nil {body : List Char} (h : has_star_slash body = false) :
    drop_block body = [] := by
  induction body with
  | nil => rfl
  | cons c b ih =>
    rcases has_star_slash_false_cons h with ⟨hhead, hb⟩
    by_cases hc : c = '*'
    · rcases b with _ | ⟨c2, b2⟩
      · subst hc; rfl
      · have hq : ¬((c2 :: b2 : List Char).head? = some '/') := by simpa using hhead hc
        rw [drop_block, if_pos hc, if_neg hq]
        exact ih hb
    · rw [drop_block, if_neg hc]
      exact ih hb

/-- Dropping leading whitespace from a whitespace-and-comments input leaves
either nothing or a comment opener with a well-formed comment tail. -/
theorem ws_comments_drop (cs : List Char) (h : WsComments cs) :
    cs.dropWhile rust_is_whitespace = [] ∨
    (∃ body rest, cs.dropWhile rust_is_whitespace = '/' :: '/' :: (body ++ '\n' :: rest) ∧
      '\n' ∉ body ∧ WsComments rest) ∨
    (∃ body, cs.dropWhile rust_is_whitespace = '/' :: '/' :: body ∧ '\n' ∉ body) ∨
    (∃ body rest, cs.dropWhile rust_is_whitespace = '/' :: '*' :: (body ++ '*' :: '/' :: rest) ∧
      has_star_slash body = false ∧ WsComments rest) ∨
    (∃ body, cs.dropWhile rust_is_whitespace = '/' :: '*' :: body ∧
      has_star_slash body = false) := by
  induction h with
  | nil => exact Or.inl rfl
  | ws hc _ ih =>
    rename_i c rest
    rwa [List.dropWhile_cons_of_pos hc]
  | line hb hr _ih =>
    rename_i body rest
    rw [List.dropWhile_cons_of_neg (by decide)]
    exact Or.inr (Or.inl ⟨body, rest, rfl, hb, hr⟩)
  | lineEnd hb =>
    rename_i body
    rw [List.dropWhile_cons_of_neg (by decide)]
    exact Or.inr (Or.inr (Or.inl ⟨body, rfl, hb⟩))
  | block hb hr _ih =>
    rename_i body rest
    rw [List.dropWhile_cons_of_neg (by decide)]
    exact Or.inr (Or.inr (Or.inr (Or.inl ⟨body, rest, rfl, hb, hr⟩)))
  | blockEnd hb =>
    rename_i body
    rw [List.dropWhile_cons_of_neg (by decide)]
    exact Or.inr (Or.inr (Or.inr (Or.inr ⟨body, rfl, hb⟩)))

/-- Dropping a whitespace prefix never lengthens a list. -/
theorem length_dropWhile_ws_le (p : Char → Bool) :
    ∀ cs : List Char, (cs.dropWhile p).length ≤ cs.length := by
  intro cs
  induction cs with
  | nil => simp
  | cons c rest ih =>
    by_cases hc : p c = true
    · rw [List.dropWhile_cons_of_pos hc]
      exact Nat.le_succ_of_le ih
    · rw [List.dropWhile_cons_of_neg hc]

/-- The comment-skipping loop consumes a whitespace-and-comments input
entirely, given fuel exceeding the input length. -/
theorem skip_loop_eq_nil_of_ws_comments :
    ∀ fuel cs, WsComments cs → cs.length < fuel → skip_loop fuel cs = [] := by
  intro fuel
  induction fuel with
  | zero => intro cs _ hlen; omega
  | succ n ih =>
    intro cs h hlen
    have hlen1 : (cs.dropWhile rust_is_whitespace).length ≤ cs.length :=
      length_dropWhile_ws_le _ cs
    rcases ws_comments_drop cs h with h0 | ⟨body, rest, heq, hb, hr⟩ |
      ⟨body, heq, hb⟩ | ⟨body, rest, heq, hb, hr⟩ | ⟨body, heq, hb⟩
    · simp [skip_loop, h0]
    · rw [skip_loop]
      simp only [heq, List.head?_cons, List.tail_cons]
      rw [if_pos (by simp)]
      rw [drop_line_append hb]
      have hlen2 : rest.length < n := by
        have := congrArg List.length heq
        simp at this
        omega
      exact ih rest hr hlen2
    · rw [skip_loop]
      simp only [heq, List.head?_cons, List.tail_cons]
      rw [if_pos (by simp)]
      rw [drop_line_eq_nil hb]
      cases n with
      | zero => rfl
      | succ m => simp [skip_loop]
    · rw [skip_loop]
      simp only [heq, List.head?_cons, List.tail_cons]
      rw [if_neg (by simp), if_pos (by simp)]
      rw [drop_block_append hb]
      have hlen2 : rest.length < n := by
        have := congrArg List.length heq
        simp at this
        omega
      exact ih rest hr hlen2
    · rw [skip_loop]
      simp only [heq, List.head?_cons, List.tail_cons]
      rw [if_neg (by simp), if_pos (by simp)]
      rw [drop_block_eq_nil hb]
      cases n with
      | zero => rfl
      | succ m => simp [skip_loop]

/-- On a whitespace-and-comments input the whole skip phase yields nothing. -/
theorem skip_whitespace_and_comments_eq_nil {cs : List Char} (h : WsComments cs) :
    skip_whitespace_and_comments cs = [] :=
  skip_loop_eq_nil_of_ws_comments (cs.length + 1) cs h (Nat.lt_succ_self _)

/-! Claim theorems. -/

/-- C1, counterexample: scanning `"a<=b"` does NOT produce `Operator("<=")`
anywhere; the claimed two-character token is absent from the full token
sequence. -/
theorem claim_c1_counterexample :
    (Except.ok (Token.Operator "<=") ∉ token_seq (Lexer.new "a<=b") 5) ∧
    token_seq (Lexer.new "a<=b") 5 ≠
      [.ok (.Identifier "a"), .ok (.Operator "<="), .ok (.Identifier "b"),
       .ok .Eof, .ok .Eof] := by
  decide

/-- C1, amended: scanning `"a<=b"` produces `Identifier("a")`, `Punct('<')`,
`Operator("=")`, `Identifier("b")`, then `Eof` — `<` is in the punctuation
set, which is tested before the operator arm, so `<=` is never munched;
maximal munch does apply to two-character operators whose first character is
not punctuation, e.g. `"a==b"` yields `Operator("==")` as one token. -/
theorem claim_c1_amended :
    token_seq (Lexer.new "a<=b") 5 =
      [.ok (.Identifier "a"), .ok (.Punct '<'), .ok (.Operator "="),
       .ok (.Identifier "b"), .ok .Eof] ∧
    token_seq (Lexer.new "a==b") 4 =
      [.ok (.Identifier "a"), .ok (.Operator "=="), .ok (.Identifier "b"),
       .ok .Eof] := by
  decide

/-- C2: a character of the punctuation set that starts a lexeme (i.e. is the
first character left after whitespace/comment skipping) is tokenized as
`Punct` of exactly that character, consuming nothing else — in particular it
is never consumed into an `Operator` token. -/
theorem claim_c2_punct_start (cs : List Char) (c : Char) (rest : List Char)
    (hskip : skip_whitespace_and_comments cs = c :: rest)
    (hpunct : c ∈ punct_chars) :
    lexer_next cs = (.ok (.Punct c), rest) := by
  rw [lexer_next.eq_def, hskip]
  fin_cases hpunct <;> rfl

/-- C2 witness: `";x"` starts with the punctuation character `;`. -/
theorem claim_c2_punct_start_witness :
    lexer_next [';', 'x'] = (.ok (.Punct ';'), ['x']) :=
  claim_c2_punct_start [';', 'x'] ';' ['x'] rfl (by decide)

/-- C4 (code bug): in the CLI `lex` mode without `--count`, the scanning
loop never terminates on an error-free input: pulled with any amount of
fuel on the empty input it just keeps printing `Eof` tokens and never
exits, because the loop body breaks only on a lex error and the iterator
always yields `Some`. -/
theorem claim_c4_lex_loop_never_terminates (fuel : Nat) :
    lex_print_loop fuel (Lexer.new "") = (List.replicate fuel Token.Eof, false) := by
  have key : ∀ n : Nat, lex_print_loop n (⟨[]⟩ : Lexer) = (List.replicate n Token.Eof, false) := by
    intro n
    induction n with
    | zero => rfl
    | succ m ih =>
      have hnext : (⟨[]⟩ : Lexer).next = (.ok .Eof, ⟨[]⟩) := rfl
      simp only [lex_print_loop, hnext]
      rw [ih, List.replicate_succ]
  exact key fuel

/-- C5: once all input is consumed (the scanner state is empty), every
subsequent pull yields `Ok(Eof)` again — the k-th pull after exhaustion is
`Ok(Eof)` for every k, so the pull operation never signals termination of
the token sequence. -/
theorem claim_c5_eof_forever (k : Nat) : pull_n (⟨[]⟩ : Lexer) k = .ok .Eof := by
  induction k with
  | zero => rfl
  | succ m ih => exact ih

/-- C6: any input made up solely of whitespace and comments — line comments,
and block comments whether terminated or not — lexes to `Eof` on the first
pull, with no error and no other token (the whole input is consumed
silently). -/
theorem claim_c6_ws_comments_eof (cs : List Char) (h : WsComments cs) :
    lexer_next cs = (.ok .Eof, []) := by
  rw [lexer_next.eq_def, skip_whitespace_and_comments_eq_nil h]

/-- C6 witness: an unterminated block comment preceded by whitespace. -/
theorem claim_c6_ws_comments_eof_witness :
    lexer_next [' ', '/', '*', ' ', 'x'] = (.ok .Eof, []) :=
  claim_c6_ws_comments_eof [' ', '/', '*', ' ', 'x']
    (WsComments.ws (by decide) (WsComments.blockEnd (by decide)))

/-- C10: scanning is deterministic — two scanner instances freshly
constructed over the same input text yield identical result sequences when
pulled the same number of times; the scanner is a pure function of its
input. -/
theorem claim_c10_deterministic (input : String) (l1 l2 : Lexer) (n : Nat)
    (h1 : l1 = Lexer.new input) (h2 : l2 = Lexer.new input) :
    token_seq l1 n = token_seq l2 n := by
  subst h1
  subst h2
  rfl

/-- C10 witness: two fresh scanners over `"int x"` agree on three pulls. -/
theorem claim_c10_deterministic_witness :
    token_seq (Lexer.new "int x") 3 = token_seq (Lexer.new "int x") 3 :=
  claim_c10_deterministic "int x" (Lexer.new "int x") (Lexer.new "int x") 3 rfl rfl

/-- C3, counterexample: in char-literal scanning, a backslash followed by
end of input fails with `UnterminatedChar`, not with `InvalidEscape` as the
claim states. -/
theorem claim_c3_counterexample :
    (read_char ['\\']).1 = .error .UnterminatedChar ∧
    (read_char ['\\']).1 ≠ .error .InvalidEscape := by
  decide

/-- C3, amended: in char-literal scanning (opening `'` consumed), a
backslash with no following character fails with `UnterminatedChar` (the
same error as plain end of input); a backslash followed by an unmapped
escape character fails with `InvalidEscape`; and a missing closing `'` —
after either a decoded escape or an ordinary character — fails with
`UnterminatedChar`. -/
theorem claim_c3_char_errors :
    (read_char []).1 = .error .UnterminatedChar ∧
    (read_char ['\\']).1 = .error .UnterminatedChar ∧
    (∀ e rest, esc_table e = none →
      (read_char ('\\' :: e :: rest)).1 = .error .InvalidEscape) ∧
    (∀ e d rest, esc_table e = some d → rest.head? ≠ some '\'' →
      (read_char ('\\' :: e :: rest)).1 = .error .UnterminatedChar) ∧
    (∀ c rest, c ≠ '\\' → rest.head? ≠ some '\'' →
      (read_char (c :: rest)).1 = .error .UnterminatedChar) := by
  refine ⟨rfl, rfl, ?_, ?_, ?_⟩
  · intro e rest hesc
    simp [read_char, hesc]
  · intro e d rest hesc hq
    simp [read_char, hesc, hq]
  · intro c rest hc hq
    simp [read_char, hc, hq]

/-- C3 witness: `'\q` (unmapped escape) fails with `InvalidEscape`. -/
theorem claim_c3_char_errors_witness :
    (read_char ['\\', 'q']).1 = .error .InvalidEscape :=
  claim_c3_char_errors.2.2.1 'q' [] rfl

/-- C7: in string-literal scanning (opening `"` consumed), each of the six
mapped escapes appends its decoded character to the accumulator and
continues; an unmapped escape fails with `InvalidEscape`; a backslash at end
of input fails with `UnterminatedString`; end of input before a closing `"`
fails with `UnterminatedString`; and a closing `"` succeeds with the
accumulated decoded text. -/
theorem claim_c7_string_scanning :
    (∀ acc rest, read_string acc ('\\' :: 'n' :: rest) = read_string (acc ++ ['\n']) rest) ∧
    (∀ acc rest, read_string acc ('\\' :: 't' :: rest) = read_string (acc ++ ['\t']) rest) ∧
    (∀ acc rest, read_string acc ('\\' :: 'r' :: rest) = read_string (acc ++ ['\r']) rest) ∧
    (∀ acc rest, read_string acc ('\\' :: '\\' :: rest) = read_string (acc ++ ['\\']) rest) ∧
    (∀ acc rest, read_string acc ('\\' :: '\'' :: rest) = read_string (acc ++ ['\'']) rest) ∧
    (∀ acc rest, read_string acc ('\\' :: '"' :: rest) = read_string (acc ++ ['"']) rest) ∧
    (∀ acc e rest, esc_table e = none →
      (read_string acc ('\\' :: e :: rest)).1 = .error .InvalidEscape) ∧
    (∀ acc, (read_string acc ['\\']).1 = .error .UnterminatedString) ∧
    (∀ acc, (read_string acc []).1 = .error .UnterminatedString) ∧
    (∀ acc rest, read_string acc ('"' :: rest) = (.ok (.StringLiteral (String.mk acc)), rest)) := by
  refine ⟨fun acc rest => rfl, fun acc rest => rfl, fun acc rest => rfl,
    fun acc rest => rfl, fun acc rest => rfl, fun acc rest => rfl,
    ?_, fun acc => rfl, fun acc => rfl, fun acc rest => rfl⟩
  intro acc e rest hesc
  simp [read_string, hesc]

/-- C7 witness: `"\q` (unmapped escape) fails with `InvalidEscape`. -/
theorem claim_c7_string_scanning_witness :
    (read_string [] ['\\', 'q']).1 = .error .InvalidEscape :=
  claim_c7_string_scanning.2.2.2.2.2.2.1 [] 'q' [] rfl

/-- No two-character operator starts with `.`. -/
theorem dot_not_two_ops (next : Char) : ('.', next) ∉ two_ops := by
  simp [two_ops]

/-- An ASCII digit fails the identifier-start guard. -/
theorem digit_guard (d : Char) (hd : is_ascii_digit d = true) :
    (is_ascii_alphabetic d || d = '_') = false := by
  by_contra hcon
  rw [Bool.not_eq_false, Bool.or_eq_true] at hcon
  simp only [is_ascii_digit, Bool.and_eq_true, decide_eq_true_eq] at hd
  rcases hcon with h1 | h1
  · simp only [is_ascii_alphabetic, Bool.or_eq_true, Bool.and_eq_true,
      decide_eq_true_eq] at h1
    omega
  · rw [decide_eq_true_eq] at h1
    subst h1
    exact absurd hd (by decide)

/-- C8, counterexample: a leading dot is NOT accepted into a `Number`
token's text — the input `.5` lexes as `Operator(".")` then `Number("5")`,
and no token `Number(".5")` appears. -/
theorem claim_c8_counterexample :
    token_seq (Lexer.new ".5") 3 =
      [.ok (.Operator "."), .ok (.Number "5"), .ok .Eof] ∧
    Except.ok (Token.Number ".5") ∉ token_seq (Lexer.new ".5") 3 := by
  decide

/-- C8, amended: a `Number` token's text begins with the ASCII digit that
started the lexeme; after it, ASCII digits and `.` characters are consumed
contiguously (verbatim from the input, maximally, with no numeric-grammar
validation — multiple dots and a trailing dot are accepted). A leading dot
is not part of a `Number`: a lexeme starting with `.` becomes
`Operator(".")`. -/
theorem claim_c8_number_token :
    (∀ cs d rest, skip_whitespace_and_comments cs = d :: rest →
      is_ascii_digit d = true →
      ∃ tail rest2,
        lexer_next cs = (.ok (.Number (String.mk (d :: tail))), rest2) ∧
        (∀ c ∈ tail, is_ascii_digit c = true ∨ c = '.') ∧
        (d :: tail) ++ rest2 = d :: rest ∧
        (∀ c, rest2.head? = some c → ¬(is_ascii_digit c = true ∨ c = '.'))) ∧
    (∀ cs rest, skip_whitespace_and_comments cs = '.' :: rest →
      lexer_next cs = (.ok (.Operator "."), rest)) := by
  constructor
  · intro cs d rest hskip hd
    obtain ⟨hmem, happ, hstop⟩ :=
      eat_while_spec (fun ch => is_ascii_digit ch || ch = '.') rest
    rcases heat : eat_while (fun ch => is_ascii_digit ch || ch = '.') rest with ⟨s, r2⟩
    rw [heat] at hmem happ hstop
    refine ⟨s, r2, ?_, ?_, ?_, ?_⟩
    · rw [lexer_next.eq_def, hskip]
      simp [digit_guard d hd, hd, heat]
    · intro c hc
      have := hmem c hc
      simpa using this
    · rw [List.cons_append, happ]
    · intro c hc
      have := hstop c hc
      simp only [Bool.or_eq_false_iff, decide_eq_false_iff_not] at this
      intro hcon
      rcases hcon with hcon | hcon
      · rw [this.1] at hcon
        exact Bool.false_ne_true hcon
      · exact this.2 hcon
  · intro cs rest hskip
    rw [lexer_next.eq_def, hskip]
    rcases rest with _ | ⟨next, rest2⟩
    · rfl
    · simp [is_ascii_alphabetic, is_ascii_digit, punct_chars, dot_not_two_ops next]

/-- C8 witness: a lexeme starting with `.` yields `Operator(".")`. -/
theorem claim_c8_number_token_witness :
    lexer_next ['.', '5'] = (.ok (.Operator "."), ['5']) :=
  claim_c8_number_token.2 ['.', '5'] ['5'] rfl

/-- C9: every `Identifier`, `Number`, or `Operator` token produced by a pull
holds at least one character — each is built from the lexeme's consumed
leading character. -/
theorem claim_c9_text_nonempty (cs : List Char) (s : String)
    (h : (lexer_next cs).1 = .ok (.Identifier s) ∨
      (lexer_next cs).1 = .ok (.Number s) ∨
      (lexer_next cs).1 = .ok (.Operator s)) :
    1 ≤ s.length := by
  rw [lexer_next.eq_def] at h
  rcases hskip : skip_whitespace_and_comments cs with _ | ⟨c, rest⟩ <;> rw [hskip] at h
  · simp at h
  · rcases heat1 : eat_while (fun ch => is_ascii_alphanumeric ch || ch = '_') rest
      with ⟨s1, r1⟩
    rcases heat2 : eat_while (fun ch => is_ascii_digit ch || ch = '.') rest
      with ⟨s2, r2⟩
    by_cases h1 : (is_ascii_alphabetic c || decide (c = '_')) = true
    · simp [h1, heat1] at h
      subst h
      simp only [String.length, List.length_cons]
      omega
    · by_cases h2 : is_ascii_digit c = true
      · simp [h1, h2, heat2] at h
        subst h
        simp only [String.length, List.length_cons]
        omega
      · by_cases h3 : c = '"'
        · simp [h3, is_ascii_alphabetic, is_ascii_digit] at h
          rcases h with h | h | h <;>
          · obtain ⟨s3, hs3⟩ := read_string_ok_shape [] rest _ h
            simp at hs3
        · by_cases h4 : c = '\''
          · simp [h4, is_ascii_alphabetic, is_ascii_digit] at h
            rcases h with h | h | h <;>
            · obtain ⟨c2, hc2⟩ := read_char_ok_shape rest _ h
              simp at hc2
          · by_cases h5 : c ∈ punct_chars
            · simp [h1, h2, h3, h4, h5] at h
            · rcases rest with _ | ⟨nx, r3⟩
              · simp [h1, h2, h3, h4, h5] at h
                subst h
                simp only [String.length, List.length_cons, List.length_nil]
                omega
              · by_cases h6 : (c, nx) ∈ two_ops
                · simp [h1, h2, h3, h4, h5, h6] at h
                  subst h
                  simp only [String.length, List.length_cons, List.length_nil]
                  omega
                · simp [h1, h2, h3, h4, h5, h6] at h
                  subst h
                  simp only [String.length, List.length_cons, List.length_nil]
                  omega

/-- C9 witness: lexing `x` yields `Identifier("x")` with one character. -/
theorem claim_c9_text_nonempty_witness : 1 ≤ ("x" : String).length :=
  claim_c9_text_nonempty ['x'] "x" (Or.inl (by decide))

end RusCom
